import Mathlib

/- Shallow embedding of the layout engine in src/visualize_network.py.
   Coordinates are integers (Python 2 ints). Python 2 integer division of
   ints floors, which is modelled by Int.fdiv. The int() truncation of the
   single float division rt_height / 1.3 is modelled by the exact rational
   floor of 10 * h / 13; the binary double 1.3 can differ from 13/10 by one
   unit in the last place at exact multiples of 13, which is immaterial here
   because the quotient is only ever used under a max with
   RESOURCE_DISTRIBUTION. -/

/-! Layout constants from the top of visualize_network.py, at their default
    command line values (stroke 3, line height 20, sub cols 3). -/

def PADDING : Int := 60

def RESOURCE_DISTRIBUTION : Int := PADDING * 3

def SUBNET_MIN_W : Int := 340

def SUBNET_MIN_H : Int := 80

def VPC_MIN_W : Int := 200

def VPC_MIN_H : Int := 120

def VPC_GUTTER_DIM : Int := 700

def LINE_BUNDLE_SPACING : Int := 10

def DIAGRAM_LINE_HEIGHT : Int := 20

def DIAGRAM_HEADER_SPACING : Int := 50

def X_DIRECTION : Int := 1

def Y_DIRECTION : Int := 0

def NO_AZ : String := "no_az"

/-! Geometry. A Rect is an axis aligned rectangle given by top left corner
    and extents, as used by the mxGeometry elements the script emits.
    Two rectangles are disjoint when their interiors do not meet. -/

structure Rect where
  x : Int
  y : Int
  w : Int
  h : Int
  deriving DecidableEq, Repr

def Rect.disjoint (a b : Rect) : Prop :=
  a.x + a.w ≤ b.x ∨ b.x + b.w ≤ a.x ∨ a.y + a.h ≤ b.y ∨ b.y + b.h ≤ a.y

instance : DecidableRel Rect.disjoint := fun a b => by
  unfold Rect.disjoint
  exact inferInstance

/-- Plain containment of rectangle b inside rectangle a. -/
def Rect.containsR (a b : Rect) : Prop :=
  a.x ≤ b.x ∧ a.y ≤ b.y ∧ b.x + b.w ≤ a.x + a.w ∧ b.y + b.h ≤ a.y + a.h

instance : DecidableRel Rect.containsR := fun a b => by
  unfold Rect.containsR
  exact inferInstance

/-- Containment of b inside a with at least PADDING of margin on every
    side, the expanded containment property asked for by the spec. -/
def Rect.containsPadded (a b : Rect) : Prop :=
  a.x + PADDING ≤ b.x ∧ a.y + PADDING ≤ b.y ∧
    b.x + b.w + PADDING ≤ a.x + a.w ∧ b.y + b.h + PADDING ≤ a.y + a.h

instance : DecidableRel Rect.containsPadded := fun a b => by
  unfold Rect.containsPadded
  exact inferInstance

/-! RouteGroup (visualize_network.py lines 264 to 303). The fields are
    stored in the order the constructor assigns them. get_next_route
    returns the emitted waypoint list together with the advanced state;
    the Python method mutates self in place. -/

structure RouteGroup where
  bundle_spacing : Int
  current_x : Int
  current_y : Int
  starting_direction : Int
  additional_break : Int
  deriving DecidableEq, Repr

def RouteGroup.get_next_route (rg : RouteGroup) (origin_x origin_y : Int) :
    List (Int × Int) × RouteGroup :=
  let complex_route :=
    if rg.starting_direction = X_DIRECTION then
      [(rg.current_x, origin_y)]
        ++ (if rg.current_y ≠ -1 then [(rg.current_x, rg.current_y)] else [])
        ++ (if rg.additional_break ≠ -1 then [(rg.additional_break, rg.current_y)] else [])
    else if rg.starting_direction = Y_DIRECTION then
      [(origin_x, rg.current_y)]
        ++ (if rg.current_x ≠ -1 then [(rg.current_x, rg.current_y)] else [])
        ++ (if rg.additional_break ≠ -1 then [(rg.current_x, rg.additional_break)] else [])
    else []
  let rg1 := if rg.current_x ≠ -1 then
      { rg with current_x := rg.current_x + rg.bundle_spacing } else rg
  let rg2 := if rg.current_y ≠ -1 then
      { rg1 with current_y := rg1.current_y - rg1.bundle_spacing } else rg1
  let rg3 := if rg.additional_break ≠ -1 then
      { rg2 with additional_break := rg2.additional_break - rg2.bundle_spacing } else rg2
  (complex_route, rg3)

/-- Run a RouteGroup through one get_next_route call per supplied origin,
    threading the mutated state, and collect the emitted routes in order. -/
def runRoutes : RouteGroup → List (Int × Int) → List (List (Int × Int))
  | _, [] => []
  | rg, o :: os =>
    let r := rg.get_next_route o.1 o.2
    r.1 :: runRoutes r.2 os

/-- The stacked coordinate of a route: the x of its first waypoint. -/
def stackedX (route : List (Int × Int)) : Option Int :=
  route.head?.map Prod.fst

/-! Stable sorting. Python 2 sorted with a cmp function is a stable sort
    ascending in cmp; it is modelled by a stable insertion sort where
    le a b means cmp a b is nonpositive. -/

def pyInsertSorted {α : Type} (le : α → α → Bool) (a : α) : List α → List α
  | [] => [a]
  | b :: t => if le a b then a :: b :: t else b :: pyInsertSorted le a t

def pySorted {α : Type} (le : α → α → Bool) : List α → List α
  | [] => []
  | a :: t => pyInsertSorted le a (pySorted le t)

theorem pyInsertSorted_perm {α : Type} (le : α → α → Bool) (a : α) :
    ∀ l : List α, (pyInsertSorted le a l).Perm (a :: l)
  | [] => List.Perm.refl _
  | b :: t => by
    unfold pyInsertSorted
    split
    · exact List.Perm.refl _
    · exact ((pyInsertSorted_perm le a t).cons b).trans (List.Perm.swap a b t)

theorem pySorted_perm {α : Type} (le : α → α → Bool) :
    ∀ l : List α, (pySorted le l).Perm l
  | [] => List.Perm.refl _
  | a :: t =>
    (pyInsertSorted_perm le a (pySorted le t)).trans ((pySorted_perm le t).cons a)

/-! String helpers, kernel friendly replacements for split and int. -/

/-- Python split on a dot, as in cidr.split in sort_routes. -/
def splitOnDotAux : List Char → List Char → List String
  | [], acc => [String.mk acc.reverse]
  | c :: rest, acc =>
    if c = '.' then String.mk acc.reverse :: splitOnDotAux rest []
    else splitOnDotAux rest (c :: acc)

def splitOnDot (s : String) : List String :=
  splitOnDotAux s.data []

def digitsToNatAux : List Char → Nat → Option Nat
  | [], acc => some acc
  | c :: rest, acc =>
    if c.isDigit then digitsToNatAux rest (acc * 10 + (c.toNat - 48)) else none

/-- Python int() applied to a string segment. It succeeds on an optional
    minus sign followed by decimal digits and fails otherwise; surrounding
    whitespace and a plus sign, which Python would also accept, never occur
    in the dotted CIDR segments this script feeds to it. -/
def pyParseInt (s : String) : Option Int :=
  match s.data with
  | [] => none
  | '-' :: rest =>
    match rest with
    | [] => none
    | _ => (digitsToNatAux rest 0).map (fun n => -(n : Int))
  | l => (digitsToNatAux l 0).map (fun n => (n : Int))

/-! Route tables (visualize_network.py lines 799 to 902). add_route stores
    4 tuples (dest_cidr, state, gw_id, origin); route fields are named after
    the tuple components, gw is component number 2. -/

structure Route where
  dest : String
  state : String
  gw : String
  origin : String
  deriving DecidableEq, Repr

/-- RouteTableResource.cmp_cidr, lines 810 to 830. Empty list on either
    side gives 0; a segment on which int() raises makes the function return
    -1 if it was the first argument and 1 if it was the second; otherwise
    segments compare numerically and ties recurse on the tails. -/
def cmp_cidr : List String → List String → Int
  | [], _ => 0
  | _ :: _, [] => 0
  | s1 :: r1, s2 :: r2 =>
    match pyParseInt s1 with
    | none => -1
    | some val_one =>
      match pyParseInt s2 with
      | none => 1
      | some val_two =>
        if val_one < val_two then -1
        else if val_two < val_one then 1
        else cmp_cidr r1 r2

/-- The cmp passed to sorted in sort_routes compares the sort keys, which
    are the destination strings, split on dots. -/
def routeLe (a b : Route) : Bool :=
  decide (cmp_cidr (splitOnDot a.dest) (splitOnDot b.dest) ≤ 0)

/-- One step of the local gateway promotion loop in sort_routes: at index r,
    if the gateway is the string local, pop that element and insert it at
    the front. -/
def moveLocalStep (l : List Route) (r : Nat) : List Route :=
  match l[r]? with
  | some e => if e.gw = "local" then e :: l.eraseIdx r else l
  | none => l

/-- The loop for r in range(len(cidr_sorted)) in sort_routes; the range is
    fixed up front and the list keeps its length at every step. -/
def moveLocalFront (l : List Route) : List Route :=
  (List.range l.length).foldl moveLocalStep l

/-- RouteTableResource.sort_routes, lines 832 to 841. -/
def sort_routes (routes : List Route) : List Route :=
  moveLocalFront (pySorted routeLe routes)

/-- The height RouteTableResource.render_xml returns, lines 866 to 902:
    the DiagramList height header_spacing + line_height * rows when the
    route list is nonempty. When the route list is empty the assignment to
    resource_height is skipped and the final return raises
    UnboundLocalError, modelled as none. -/
def RouteTableResource.render_xml_height (routes : List Route) : Option Int :=
  if routes.length > 0 then
    some (DIAGRAM_HEADER_SPACING + DIAGRAM_LINE_HEIGHT * (routes.length : Int))
  else none

structure RouteTableResource where
  routes : List Route
  az_connections : List String
  deriving DecidableEq, Repr

def countOcc (l : List String) (s : String) : Nat :=
  (l.filter (fun t => t = s)).length

/-- RouteTableResource.get_suggested_az, lines 847 to 851. Python takes the
    max of set(az_connections) keyed by count; ties are broken by the
    unspecified iteration order of a Python 2 set, modelled here as the
    earliest listed element of maximal count (the claims this file settles
    only involve inputs with a unique maximum). -/
def RouteTableResource.get_suggested_az (rt : RouteTableResource) : String :=
  match rt.az_connections with
  | [] => NO_AZ
  | a :: _ =>
    rt.az_connections.foldl
      (fun best s =>
        if countOcc rt.az_connections best < countOcc rt.az_connections s then s else best)
      a

/-- Python list.index: position of the first occurrence, ValueError (none)
    when absent. -/
def pyIndexOf : List String → String → Option Nat
  | [], _ => none
  | a :: rest, s => if a = s then some 0 else (pyIndexOf rest s).map (· + 1)

/-! Subnets (lines 707 to 764). Only the fields the layout consumes are
    kept: the name (sort key of AZResource.render_xml), the number of
    registered NAT gateways and the column suggestion that
    get_col_suggestion reports from the first nacl association. -/

structure SubnetResource where
  name : String
  ngCount : Nat
  col : Int
  deriving DecidableEq, Repr

/-- SubnetResource.get_dimensions, lines 717 to 722. -/
def SubnetResource.get_dimensions (s : SubnetResource) : Int × Int :=
  let ng_height_requirement := (s.ngCount : Int) * RESOURCE_DISTRIBUTION - PADDING
  (SUBNET_MIN_W,
    if ng_height_requirement > SUBNET_MIN_H then ng_height_requirement else SUBNET_MIN_H)

/-- The NAT gateway icons SubnetResource.render_xml places, lines 760 to
    764: 50 by 50 DiagramObject icons starting at the subnet right edge
    minus half a padding, vertically from half the subnet height, stepping
    RESOURCE_DISTRIBUTION per gateway. -/
def subnetNgRectsGo : Int → Int → Nat → List Rect
  | _, _, 0 => []
  | nx, ny, Nat.succ n =>
    ⟨nx, ny, 50, 50⟩ :: subnetNgRectsGo nx (ny + RESOURCE_DISTRIBUTION) n

def SubnetResource.ng_rects (s : SubnetResource) (x y : Int) : List Rect :=
  let d := s.get_dimensions
  subnetNgRectsGo (x + d.1 - PADDING.fdiv 2) (y + d.2.fdiv 2) s.ngCount

/-! Availability zones (lines 904 to 968). -/

structure AZResource where
  id : String
  subnets : List SubnetResource
  width_override : Bool × Int
  deriving DecidableEq, Repr

/-- The loop body of AZResource.get_dimensions, lines 925 to 936: w is
    overwritten with each subnet width, h accumulates heights plus padding
    starting from one padding. -/
def azDimsGo : Int × Int → List SubnetResource → Int × Int
  | acc, [] => acc
  | (_, h), s :: rest =>
    azDimsGo ((s.get_dimensions).1, h + (s.get_dimensions).2 + PADDING) rest

def AZResource.get_dimensions (az : AZResource) : Int × Int :=
  let wh := azDimsGo (0, PADDING) az.subnets
  (if az.width_override.1 then az.width_override.2 else wh.1 + 2 * PADDING, wh.2)

/-- The subnet placement loop of AZResource.render_xml, lines 958 to 968:
    subnets stack downward with padding between them, each offset
    horizontally by its column suggestion times the slot width. -/
def azSubnetRectsGo (width cols : Int) : Int → Int → List SubnetResource → List Rect
  | _, _, [] => []
  | sx, sy, s :: rest =>
    let d := s.get_dimensions
    let offset := s.col * ((width - d.1 - PADDING).fdiv cols)
    ⟨sx + offset, sy, d.1, d.2⟩ :: azSubnetRectsGo width cols sx (sy + PADDING + d.2) rest

/-- The rectangles AZResource.render_xml assigns to its subnets: the
    subnets are sorted by name, then stacked from one padding inside the
    zone box whose width comes from get_dimensions. cols is the global
    SUBNET_ALIGNMENT_COLS (default 3). -/
def AZResource.subnet_rects (az : AZResource) (x y cols : Int) : List Rect :=
  azSubnetRectsGo (az.get_dimensions).1 cols (x + PADDING) (y + PADDING)
    (pySorted (fun a b => decide (a.name ≤ b.name)) az.subnets)

/-! The VPC container (lines 992 to 1150). Only the count of nacls matters
    for geometry, so the nacl list is kept as a count. -/

structure VpcResource where
  azs : List AZResource
  naclCount : Nat
  rts : List RouteTableResource
  deriving DecidableEq, Repr

/-- VpcResource.check_empty, lines 1015 to 1016. -/
def VpcResource.check_empty (v : VpcResource) : Bool :=
  v.azs.isEmpty && v.naclCount == 0 && v.rts.isEmpty

/-- One iteration of the sizing loop in VpcResource.get_dimensions, lines
    1041 to 1045: accumulate combined height and running maximum width
    requirement. -/
def vpcDimsStep (acc : Int × Int) (az : AZResource) : Int × Int :=
  let d := az.get_dimensions
  (acc.1 + d.2, if d.1 + PADDING > acc.2 then d.1 + PADDING else acc.2)

/-- The sizing loop of VpcResource.get_dimensions over the zone list,
    started at the initial requirements of lines 1038 and 1039: combined
    height RESOURCE_DISTRIBUTION + 2 PADDING, maximum width
    RESOURCE_DISTRIBUTION + PADDING. -/
def vpcSizingFold (v : VpcResource) : Int × Int :=
  v.azs.foldl vpcDimsStep
    (RESOURCE_DISTRIBUTION + 2 * PADDING, RESOURCE_DISTRIBUTION + PADDING)

/-- nacl_combined_width_requirement, line 1047. -/
def vpcNaclW (v : VpcResource) : Int :=
  (v.naclCount : Int) * RESOURCE_DISTRIBUTION

/-- The mutation lines 1049 to 1052 perform: when the nacl row demands more
    width than any zone, every zone gets override_width of that width minus
    one padding. -/
def vpcApplyOverride (v : VpcResource) : VpcResource :=
  if vpcNaclW v > (vpcSizingFold v).2 then
    { v with azs := v.azs.map (fun az =>
        { az with width_override := (true, vpcNaclW v - PADDING) }) }
  else v

/-- VpcResource.get_dimensions, lines 1033 to 1060. The method mutates the
    zone list when the nacl row demands more width (override_width on every
    zone), so it returns the dimensions together with the updated resource. -/
def VpcResource.get_dimensions (v : VpcResource) : (Int × Int) × VpcResource :=
  if v.check_empty then ((VPC_MIN_W, VPC_MIN_H), v)
  else
    let hw := vpcSizingFold v
    let az_max := if vpcNaclW v > hw.2 then vpcNaclW v else hw.2
    let rt_combined_height_requirement := (v.rts.length : Int) * RESOURCE_DISTRIBUTION
    let combined :=
      if rt_combined_height_requirement > hw.1 then rt_combined_height_requirement else hw.1
    ((az_max + 5 * PADDING, combined + 2 * PADDING), vpcApplyOverride v)

/-- VpcResource.sort_rt_resources, lines 1024 to 1031. Python sorts the
    route tables by list.index of their suggested zone in the zone id list
    with the sentinel appended; index raises ValueError on a miss. With at
    most one route table no comparison ever runs; with two or more every
    element is compared at least once, so any missing zone raises, modelled
    as none. -/
def VpcResource.sort_rt_resources (v : VpcResource) : Option (List RouteTableResource) :=
  if v.check_empty then some []
  else
    let az_sorting_list := v.azs.map AZResource.id ++ [NO_AZ]
    if v.rts.length ≤ 1 then some v.rts
    else if v.rts.all (fun rt => (pyIndexOf az_sorting_list rt.get_suggested_az).isSome) then
      some (pySorted (fun a b =>
        decide ((pyIndexOf az_sorting_list a.get_suggested_az).getD 0
          ≤ (pyIndexOf az_sorting_list b.get_suggested_az).getD 0)) v.rts)
    else none

/-- The nacl icon row of VpcResource.render_xml, lines 1097 to 1103: 50 by
    50 icons stepping RESOURCE_DISTRIBUTION to the right. -/
def vpcNaclRectsGo : Int → Int → Nat → List Rect
  | _, _, 0 => []
  | nx, ny, Nat.succ n =>
    ⟨nx, ny, 50, 50⟩ :: vpcNaclRectsGo (nx + RESOURCE_DISTRIBUTION) ny n

/-- The route table icon column of VpcResource.render_xml, lines 1105 to
    1120: 50 by 50 icons; after each table the y advances by the max of the
    returned list height divided by 1.3 and RESOURCE_DISTRIBUTION. A table
    with no routes still gets its icon but then raises inside render_xml,
    aborting the loop. -/
def vpcRtRectsGo : Int → Int → List RouteTableResource → List Rect
  | _, _, [] => []
  | rx, ry, rt :: rest =>
    if rt.routes.length = 0 then [⟨rx, ry, 50, 50⟩]
    else
      let rt_height := DIAGRAM_HEADER_SPACING + DIAGRAM_LINE_HEIGHT * (rt.routes.length : Int)
      ⟨rx, ry, 50, 50⟩ ::
        vpcRtRectsGo rx (ry + max ((10 * rt_height).fdiv 13) RESOURCE_DISTRIBUTION) rest

/-- Route table icons are laid out in the order sort_rt_resources yields;
    if that call raises, nothing is placed. -/
def vpcRtRects (rx ry : Int) (v : VpcResource) : List Rect :=
  match v.sort_rt_resources with
  | some l => vpcRtRectsGo rx ry l
  | none => []

/-- The zone placement loop of VpcResource.render_xml, lines 1136 to 1150.
    Empty zones are width overridden to the small width and packed two per
    row alternating left and right; a nonempty zone after a pending left
    placeholder first advances the row by SUBNET_MIN_H plus padding. -/
def vpcAzRectsGo (azx small : Int) : Int → Bool → List AZResource → List Rect
  | _, _, [] => []
  | y, right, az :: rest =>
    if az.subnets.isEmpty then
      let d := ({ az with width_override := (true, small) } : AZResource).get_dimensions
      if right then
        ⟨azx + small + PADDING, y, d.1, d.2⟩ ::
          vpcAzRectsGo azx small (y + PADDING + d.2) false rest
      else
        ⟨azx, y, d.1, d.2⟩ :: vpcAzRectsGo azx small y true rest
    else
      let y2 := if right then y + SUBNET_MIN_H + PADDING else y
      let d := az.get_dimensions
      ⟨azx, y2, d.1, d.2⟩ :: vpcAzRectsGo azx small (y2 + PADDING + d.2) false rest

/-- All rectangles VpcResource.render_xml assigns to the children it
    places, with the vpc container at (x, y): the nacl icon row, the route
    table icon column and the availability zone boxes, after the sizing
    pass has applied its width overrides. -/
def VpcResource.child_rects (v : VpcResource) (x y : Int) : List Rect :=
  let gd := v.get_dimensions
  let vpc_width := gd.1.1
  let v2 := gd.2
  let small_az_width := (vpc_width - 7 * PADDING).fdiv 2
  vpcNaclRectsGo (x + RESOURCE_DISTRIBUTION + 2 * PADDING) (y + PADDING) v2.naclCount
    ++ vpcRtRects (x + PADDING.fdiv 2) (y + RESOURCE_DISTRIBUTION + PADDING) v2
    ++ vpcAzRectsGo (x + RESOURCE_DISTRIBUTION) small_az_width (y + RESOURCE_DISTRIBUTION)
        false v2.azs

/-! Column hint assignment in visualize_vpc, lines 1430 to 1436. -/

/-- int(math.ceil(float(n) / cols)): the ceiling of n over cols. -/
def col_bucket_div (n cols : Nat) : Nat :=
  if n % cols = 0 then n / cols else n / cols + 1

/-- The column suggestion given to the i-th nacl is int(i / div). -/
def nacl_col_assignments (n cols : Nat) : List Nat :=
  (List.range n).map (fun i => i / col_bucket_div n cols)

/-! Helper lemmas about RouteGroup state transitions. -/

theorem get_next_route_snd (rg : RouteGroup) (ox oy : Int) :
    (rg.get_next_route ox oy).2 =
      { rg with
        current_x := if rg.current_x ≠ -1 then rg.current_x + rg.bundle_spacing
          else rg.current_x,
        current_y := if rg.current_y ≠ -1 then rg.current_y - rg.bundle_spacing
          else rg.current_y,
        additional_break := if rg.additional_break ≠ -1 then
          rg.additional_break - rg.bundle_spacing else rg.additional_break } := by
  unfold RouteGroup.get_next_route
  split_ifs <;> rfl

/-- C10: SubnetResource.get_dimensions always returns width SUBNET_MIN_W =
    340 no matter how many NAT gateways are registered, and the height is
    the maximum of SUBNET_MIN_H = 80 and the gateway count times
    RESOURCE_DISTRIBUTION minus PADDING. -/
theorem claim_C10_subnet_fixed_width (s : SubnetResource) :
    s.get_dimensions
      = (SUBNET_MIN_W, max SUBNET_MIN_H ((s.ngCount : Int) * RESOURCE_DISTRIBUTION - PADDING))
    ∧ SUBNET_MIN_W = 340 ∧ SUBNET_MIN_H = 80 ∧ RESOURCE_DISTRIBUTION = 180 ∧ PADDING = 60 := by
  refine ⟨?_, rfl, rfl, rfl, rfl⟩
  unfold SubnetResource.get_dimensions
  rw [Prod.mk.injEq]
  refine ⟨rfl, ?_⟩
  split <;> omega

/-- C6: sorting the route list with destinations 10.0.0.0/16, 0.0.0.0/0
    (gateway local) and 192.168.0.0/24 yields the local default route first
    and then ascending segment wise numeric CIDR order. -/
theorem claim_C6_cidr_order_example :
    sort_routes
      [⟨"10.0.0.0/16", "active", "igw-1", "Create Route"⟩,
       ⟨"0.0.0.0/0", "active", "local", "Create Route"⟩,
       ⟨"192.168.0.0/24", "active", "pcx-1", "Create Route"⟩]
    = [⟨"0.0.0.0/0", "active", "local", "Create Route"⟩,
       ⟨"10.0.0.0/16", "active", "igw-1", "Create Route"⟩,
       ⟨"192.168.0.0/24", "active", "pcx-1", "Create Route"⟩] := by decide

/-- C7 counterexample: the claim says a segment that fails to parse as an
    integer is ordered greater than a well formed numeric peer and lesser
    than the unset (exhausted list) case. In the code a non numeric segment
    makes cmp_cidr order its side lesser (result -1 when it is the first
    argument, 1 when it is the second), and against an exhausted list the
    result is 0, not lesser. -/
theorem claim_C7_nonnumeric_counterexample :
    cmp_cidr ["0/16"] ["5"] = -1 ∧ ¬ cmp_cidr ["0/16"] ["5"] = 1
    ∧ cmp_cidr ["0/16"] [] = 0 ∧ ¬ cmp_cidr ["0/16"] [] < 0 := by decide

/-- C7 (amended): whenever a compared segment does not parse as an integer,
    cmp_cidr orders that side lesser: it returns -1 when the first argument
    has the non numeric head (regardless of the peer) and 1 when the first
    head is numeric and the second is not; comparison against an exhausted
    list returns 0 (equal). -/
theorem claim_C7_nonnumeric_amended :
    (∀ (s1 s2 : String) (l1 l2 : List String),
      pyParseInt s1 = none → cmp_cidr (s1 :: l1) (s2 :: l2) = -1)
    ∧ (∀ (s1 s2 : String) (l1 l2 : List String) (v : Int),
      pyParseInt s1 = some v → pyParseInt s2 = none → cmp_cidr (s1 :: l1) (s2 :: l2) = 1)
    ∧ (∀ l : List String, cmp_cidr l [] = 0 ∧ cmp_cidr [] l = 0) := by
  refine ⟨?_, ?_, ?_⟩
  · intro s1 s2 l1 l2 h
    simp [cmp_cidr, h]
  · intro s1 s2 l1 l2 v h1 h2
    simp [cmp_cidr, h1, h2]
  · intro l
    cases l <;> exact ⟨rfl, rfl⟩

theorem claim_C7_nonnumeric_amended_witness :
    cmp_cidr ["0/16"] ["5"] = -1 ∧ cmp_cidr ["5"] ["0/16"] = 1 ∧ cmp_cidr ["0/16"] [] = 0 :=
  ⟨claim_C7_nonnumeric_amended.1 "0/16" "5" [] [] (by decide),
   claim_C7_nonnumeric_amended.2.1 "5" "0/16" [] [] 5 (by decide) (by decide),
   (claim_C7_nonnumeric_amended.2.2 ["0/16"]).1⟩

/-- C4: the claim says the rendering core never raises on malformed but
    present data, naming a route table with an empty route list and a
    subnet association whose subnet has no recorded zone. Both named inputs
    raise: render_xml reaches return resource_height without assigning it
    (UnboundLocalError, modelled as none), and sort_rt_resources calls
    list.index on a suggested zone that is neither a known zone id nor the
    no_az sentinel (ValueError, modelled as none). A nonempty route list
    does complete, returning the list height. -/
theorem claim_C4_degenerate_inputs_raise :
    RouteTableResource.render_xml_height [] = none
    ∧ RouteTableResource.render_xml_height
        [⟨"0.0.0.0/0", "active", "igw-1", "Create Route"⟩] = some 70
    ∧ VpcResource.sort_rt_resources
        ⟨[⟨"us-east-1a", [], (false, 0)⟩], 0,
         [⟨[], [""]⟩,
          ⟨[⟨"0.0.0.0/0", "active", "local", "Create Route"⟩], ["us-east-1a"]⟩]⟩ = none := by
  decide

/-- C9: a RouteGroup built with an axis selector that is neither
    X_DIRECTION nor Y_DIRECTION produces the empty waypoint list on every
    subsequent get_next_route call, degrading every affected connection to
    a direct edge. The constructor itself only prints a warning, which is
    outside the shallow embedding. -/
theorem claim_C9_invalid_axis_empty_routes (rg : RouteGroup)
    (hx : rg.starting_direction ≠ X_DIRECTION)
    (hy : rg.starting_direction ≠ Y_DIRECTION) (os : List (Int × Int)) :
    runRoutes rg os = os.map (fun _ => []) := by
  induction os generalizing rg with
  | nil => rfl
  | cons o os ih =>
    show (rg.get_next_route o.1 o.2).1 :: runRoutes (rg.get_next_route o.1 o.2).2 os = _
    have h1 : (rg.get_next_route o.1 o.2).1 = [] := by
      simp only [RouteGroup.get_next_route]
      rw [if_neg hx, if_neg hy]
    rw [h1, List.map_cons]
    congr 1
    apply ih
    · rw [get_next_route_snd]
      exact hx
    · rw [get_next_route_snd]
      exact hy

theorem claim_C9_invalid_axis_empty_routes_witness :
    runRoutes ⟨10, 3, 4, 5, -1⟩ [(1, 2), (3, 4)] = [[], []] :=
  claim_C9_invalid_axis_empty_routes ⟨10, 3, 4, 5, -1⟩ (by decide) (by decide) [(1, 2), (3, 4)]

/-- C3 counterexample: with axis X_DIRECTION, starting stacked x -11 (which
    is different from -1) and spacing 10, three calls produce stacked x
    values -11, -1, -1: after the first advance the stacked coordinate
    lands exactly on the sentinel -1, the generator stops advancing, and
    the third coordinate repeats instead of increasing to 9 as the claim
    predicts. A spacing of 0 likewise repeats the same coordinate. -/
theorem claim_C3_stagger_counterexample :
    ((runRoutes ⟨10, -11, -1, X_DIRECTION, -1⟩ [(0, 0), (0, 0), (0, 0)]).map stackedX
        = [some (-11), some (-1), some (-1)])
    ∧ ¬ ((runRoutes ⟨10, -11, -1, X_DIRECTION, -1⟩ [(0, 0), (0, 0), (0, 0)]).map stackedX
        = [some (-11), some (-1), some 9])
    ∧ ((runRoutes ⟨0, 5, -1, X_DIRECTION, -1⟩ [(0, 0), (0, 0)]).map stackedX
        = [some 5, some 5]) := by decide

/-- C3 (amended): for a RouteGroup with axis X_DIRECTION, positive spacing
    s, and a starting stacked x coordinate such that no value start + j * s
    taken during the k calls equals the sentinel -1, the k emitted paths
    have stacked x coordinates start + i * s for i = 0 .. k - 1, so they
    strictly increase by exactly s from each call to the next and no
    coordinate on the varying axis is ever reused. -/
theorem claim_C3_stagger_amended (rg : RouteGroup) (os : List (Int × Int))
    (hdir : rg.starting_direction = X_DIRECTION)
    (hs : 0 < rg.bundle_spacing)
    (havoid : ∀ j, j < os.length → rg.current_x + (j : Int) * rg.bundle_spacing ≠ -1) :
    (runRoutes rg os).map stackedX
      = (List.range os.length).map
          (fun i : Nat => some (rg.current_x + (i : Int) * rg.bundle_spacing)) := by
  induction os generalizing rg with
  | nil => rfl
  | cons o os ih =>
    have hx0 : rg.current_x ≠ -1 := by
      have h := havoid 0 (by simp)
      simpa using h
    have hhead : stackedX (rg.get_next_route o.1 o.2).1 = some rg.current_x := by
      simp only [RouteGroup.get_next_route, stackedX]
      rw [if_pos hdir]
      simp
    show stackedX (rg.get_next_route o.1 o.2).1
        :: (runRoutes (rg.get_next_route o.1 o.2).2 os).map stackedX = _
    have hstate := get_next_route_snd rg o.1 o.2
    have htail : (runRoutes (rg.get_next_route o.1 o.2).2 os).map stackedX
        = (List.range os.length).map
            (fun i : Nat => some ((rg.current_x + rg.bundle_spacing)
              + (i : Int) * rg.bundle_spacing)) := by
      rw [hstate]
      have hcx : (if rg.current_x ≠ -1 then rg.current_x + rg.bundle_spacing
          else rg.current_x) = rg.current_x + rg.bundle_spacing := if_pos hx0
      rw [show ({ rg with
            current_x := if rg.current_x ≠ -1 then rg.current_x + rg.bundle_spacing
              else rg.current_x,
            current_y := if rg.current_y ≠ -1 then rg.current_y - rg.bundle_spacing
              else rg.current_y,
            additional_break := if rg.additional_break ≠ -1 then
              rg.additional_break - rg.bundle_spacing
              else rg.additional_break } : RouteGroup)
          = { rg with
              current_x := rg.current_x + rg.bundle_spacing,
              current_y := if rg.current_y ≠ -1 then rg.current_y - rg.bundle_spacing
                else rg.current_y,
              additional_break := if rg.additional_break ≠ -1 then
                rg.additional_break - rg.bundle_spacing
                else rg.additional_break } from by rw [hcx]]
      exact ih _ hdir hs (by
        intro j hj
        have h := havoid (j + 1) (by simpa using Nat.succ_lt_succ hj)
        push_cast at h ⊢
        have : rg.current_x + ((j : Int) + 1) * rg.bundle_spacing
            = rg.current_x + rg.bundle_spacing + (j : Int) * rg.bundle_spacing := by ring
        rw [this] at h
        exact h)
    rw [hhead, htail]
    simp only [List.length_cons, List.range_succ_eq_map, List.map_cons, List.map_map]
    congr 1
    · norm_num
    · apply List.map_congr_left
      intro a _
      simp only [Function.comp]
      refine congrArg some ?_
      push_cast
      ring

theorem claim_C3_stagger_amended_witness :
    (runRoutes ⟨10, 100, -1, X_DIRECTION, -1⟩ [(0, 0), (5, 7), (2, 3)]).map stackedX
      = (List.range 3).map (fun i => some ((100 : Int) + (i : Int) * 10)) :=
  claim_C3_stagger_amended ⟨10, 100, -1, X_DIRECTION, -1⟩ [(0, 0), (5, 7), (2, 3)]
    rfl (by decide) (by decide)

/-- C8: with n nacls and desiredColumns = c > 0 the bucket size
    int(math.ceil(float(n) / c)) equals the integer ceiling (n + c - 1) / c
    and the nacl at zero based index i receives column i divided by that
    bucket size; for 7 nacls and 3 columns the bucket size is 3 and the
    columns are 0,0,0,1,1,1,2. -/
theorem claim_C8_column_bucketing :
    (∀ n c : Nat, 0 < c →
      col_bucket_div n c = (n + c - 1) / c
      ∧ nacl_col_assignments n c
          = (List.range n).map (fun i => i / ((n + c - 1) / c)))
    ∧ nacl_col_assignments 7 3 = [0, 0, 0, 1, 1, 1, 2] := by
  constructor
  · intro n c hc
    have hdm := Nat.div_add_mod n c
    have hmod : n % c < c := Nat.mod_lt n hc
    have hdiv : col_bucket_div n c = (n + c - 1) / c := by
      unfold col_bucket_div
      by_cases hr : n % c = 0
      · rw [if_pos hr]
        have h1 : n + c - 1 = c * (n / c) + (c - 1) := by omega
        rw [h1, Nat.mul_add_div hc, Nat.div_eq_of_lt (show c - 1 < c by omega)]
        omega
      · rw [if_neg hr]
        have h2 : c * (n / c + 1) = c * (n / c) + c := by ring
        have h1 : n + c - 1 = c * (n / c + 1) + (n % c - 1) := by omega
        rw [h1, Nat.mul_add_div hc, Nat.div_eq_of_lt (show n % c - 1 < c by omega)]
    refine ⟨hdiv, ?_⟩
    unfold nacl_col_assignments
    rw [hdiv]
  · decide

theorem claim_C8_column_bucketing_witness :
    col_bucket_div 7 3 = (7 + 3 - 1) / 3
    ∧ nacl_col_assignments 7 3 = (List.range 7).map (fun i => i / ((7 + 3 - 1) / 3)) :=
  claim_C8_column_bucketing.1 7 3 (by decide)

/-! Helper lemmas for the VPC sizing pass. -/

theorem az_height_override (az : AZResource) (o : Bool × Int) :
    (AZResource.get_dimensions { az with width_override := o }).2
      = (az.get_dimensions).2 := rfl

theorem az_width_override (az : AZResource) (w : Int) :
    (AZResource.get_dimensions { az with width_override := (true, w) }).1 = w := rfl

theorem isEmpty_map {α β : Type} (f : α → β) (l : List α) :
    (l.map f).isEmpty = l.isEmpty := by
  cases l <;> rfl

theorem vpcDimsStep_fst (p : Int × Int) (az : AZResource) :
    (vpcDimsStep p az).1 = p.1 + (az.get_dimensions).2 := rfl

theorem foldl_vpcDimsStep_fst :
    ∀ (l : List AZResource) (p : Int × Int),
      (l.foldl vpcDimsStep p).1
        = p.1 + (l.map (fun az => (az.get_dimensions).2)).sum
  | [], p => by simp
  | a :: t, p => by
    rw [List.foldl_cons, foldl_vpcDimsStep_fst t]
    simp only [vpcDimsStep_fst, List.map_cons, List.sum_cons]
    omega

theorem foldl_vpcDimsStep_snd_ge :
    ∀ (l : List AZResource) (p : Int × Int), p.2 ≤ (l.foldl vpcDimsStep p).2
  | [], _ => le_refl _
  | a :: t, p => by
    rw [List.foldl_cons]
    refine le_trans ?_ (foldl_vpcDimsStep_snd_ge t _)
    unfold vpcDimsStep
    dsimp only
    split <;> omega

theorem foldl_vpcDimsStep_snd_allk (k : Int) :
    ∀ (l : List AZResource), (∀ az ∈ l, (az.get_dimensions).1 = k - PADDING) →
      ∀ p : Int × Int,
        (l.foldl vpcDimsStep p).2 = if l.isEmpty then p.2 else max p.2 k
  | [], _, p => by simp
  | a :: t, hall, p => by
    rw [List.foldl_cons,
      foldl_vpcDimsStep_snd_allk k t (fun az haz => hall az (List.mem_cons_of_mem a haz))]
    have ha : (a.get_dimensions).1 = k - PADDING := hall a (List.mem_cons_self a t)
    have hstep : (vpcDimsStep p a).2 = max p.2 k := by
      unfold vpcDimsStep
      dsimp only
      rw [ha]
      have h60 : k - PADDING + PADDING = k := by omega
      rw [h60]
      split <;> omega
    rw [hstep]
    cases t with
    | nil => simp
    | cons b t2 =>
      simp only [List.isEmpty_cons, if_neg]
      simp only [Bool.false_eq_true, if_false]
      omega

theorem vpcApplyOverride_naclCount (v : VpcResource) :
    (vpcApplyOverride v).naclCount = v.naclCount := by
  unfold vpcApplyOverride
  split <;> rfl

theorem vpcApplyOverride_rts (v : VpcResource) :
    (vpcApplyOverride v).rts = v.rts := by
  unfold vpcApplyOverride
  split <;> rfl

theorem vpcApplyOverride_check_empty (v : VpcResource) :
    (vpcApplyOverride v).check_empty = v.check_empty := by
  unfold vpcApplyOverride
  split
  · unfold VpcResource.check_empty
    dsimp only
    rw [isEmpty_map]
  · rfl

theorem vpcSizingFold_fst_applyOverride (v : VpcResource) :
    (vpcSizingFold (vpcApplyOverride v)).1 = (vpcSizingFold v).1 := by
  unfold vpcApplyOverride
  split
  · unfold vpcSizingFold
    dsimp only
    rw [foldl_vpcDimsStep_fst, foldl_vpcDimsStep_fst, List.map_map]
    have hmaps : v.azs.map ((fun az => (az.get_dimensions).2)
          ∘ (fun az =>
            ({ az with width_override := (true, vpcNaclW v - PADDING) } : AZResource)))
        = v.azs.map (fun az => (az.get_dimensions).2) :=
      List.map_congr_left (fun az _ => az_height_override az _)
    rw [hmaps]
  · rfl

/-- C5: sizing is idempotent. Subnet and zone sizing are pure functions of
    the tree, so only the vpc needs an argument: even though the first
    get_dimensions call may mutate the zone width overrides through
    override_width, a second call on the mutated resource reports the same
    (width, height) pair. -/
theorem claim_C5_sizing_idempotent (v : VpcResource) :
    ((v.get_dimensions).2.get_dimensions).1 = (v.get_dimensions).1 := by
  by_cases hemp : v.check_empty = true
  · have h1 : v.get_dimensions = ((VPC_MIN_W, VPC_MIN_H), v) := by
      unfold VpcResource.get_dimensions
      rw [if_pos hemp]
    rw [h1]
    show (v.get_dimensions).1 = (VPC_MIN_W, VPC_MIN_H)
    rw [h1]
  · have hgd2 : (v.get_dimensions).2 = vpcApplyOverride v := by
      unfold VpcResource.get_dimensions
      rw [if_neg hemp]
    have hemp2 : ¬ (vpcApplyOverride v).check_empty = true := by
      rw [vpcApplyOverride_check_empty]
      exact hemp
    have hgd1 : ∀ w : VpcResource, ¬ w.check_empty = true →
        (w.get_dimensions).1
        = ((if vpcNaclW w > (vpcSizingFold w).2 then vpcNaclW w else (vpcSizingFold w).2)
            + 5 * PADDING,
           (if (w.rts.length : Int) * RESOURCE_DISTRIBUTION > (vpcSizingFold w).1
            then (w.rts.length : Int) * RESOURCE_DISTRIBUTION else (vpcSizingFold w).1)
            + 2 * PADDING) := by
      intro w hw
      unfold VpcResource.get_dimensions
      rw [if_neg hw]
    rw [hgd2, hgd1 v hemp, hgd1 (vpcApplyOverride v) hemp2]
    have hnacl : vpcNaclW (vpcApplyOverride v) = vpcNaclW v := by
      unfold vpcNaclW
      rw [vpcApplyOverride_naclCount]
    have hfst : (vpcSizingFold (vpcApplyOverride v)).1 = (vpcSizingFold v).1 :=
      vpcSizingFold_fst_applyOverride v
    have hrts : (vpcApplyOverride v).rts = v.rts := vpcApplyOverride_rts v
    by_cases hov : vpcNaclW v > (vpcSizingFold v).2
    · have hva : vpcApplyOverride v
          = { v with azs := v.azs.map (fun az =>
              { az with width_override := (true, vpcNaclW v - PADDING) }) } := by
        unfold vpcApplyOverride
        rw [if_pos hov]
      have hinit : (RESOURCE_DISTRIBUTION + PADDING : Int) = 240 := by decide
      have hge : (RESOURCE_DISTRIBUTION + 2 * PADDING,
          (RESOURCE_DISTRIBUTION + PADDING : Int)).2 ≤ (vpcSizingFold v).2 :=
        foldl_vpcDimsStep_snd_ge v.azs _
      have hk240 : (240 : Int) < vpcNaclW v := by
        have : (RESOURCE_DISTRIBUTION + PADDING : Int) ≤ (vpcSizingFold v).2 := hge
        omega
      have hsnd2 : (vpcSizingFold (vpcApplyOverride v)).2
          = if v.azs.isEmpty then (240 : Int) else max 240 (vpcNaclW v) := by
        rw [hva]
        unfold vpcSizingFold
        dsimp only
        rw [foldl_vpcDimsStep_snd_allk (vpcNaclW v)
          (v.azs.map (fun az => { az with width_override := (true, vpcNaclW v - PADDING) }))
          (by
            intro az haz
            rcases List.mem_map.mp haz with ⟨a, _, rfl⟩
            exact az_width_override a (vpcNaclW v - PADDING))]
        rw [isEmpty_map]
        dsimp only
        rw [hinit]
      rw [Prod.mk.injEq]
      constructor
      · rw [hnacl, hsnd2]
        by_cases hmt : v.azs.isEmpty
        · rw [if_pos hmt, if_pos hk240, if_pos hov]
        · rw [if_neg hmt]
          have hmax : max (240 : Int) (vpcNaclW v) = vpcNaclW v := by omega
          rw [hmax]
          rw [if_neg (lt_irrefl _), if_pos hov]
      · rw [hfst, hrts]
    · have hva : vpcApplyOverride v = v := by
        unfold vpcApplyOverride
        rw [if_neg hov]
      rw [hva]

/-! Geometry lemmas for the placement loops. -/

theorem subnet_height_ge (s : SubnetResource) : SUBNET_MIN_H ≤ (s.get_dimensions).2 := by
  unfold SubnetResource.get_dimensions
  dsimp only
  split <;> omega

theorem azDimsGo_snd_ge :
    ∀ (l : List SubnetResource) (p : Int × Int), p.2 ≤ (azDimsGo p l).2
  | [], _ => le_refl _
  | s :: t, p => by
    have hs := subnet_height_ge s
    have ht := azDimsGo_snd_ge t ((s.get_dimensions).1, p.2 + (s.get_dimensions).2 + PADDING)
    show p.2 ≤ (azDimsGo ((s.get_dimensions).1, p.2 + (s.get_dimensions).2 + PADDING) t).2
    refine le_trans ?_ ht
    dsimp only
    unfold SUBNET_MIN_H at hs
    unfold PADDING
    omega

theorem az_height_ge (az : AZResource) : PADDING ≤ (az.get_dimensions).2 :=
  azDimsGo_snd_ge az.subnets (0, PADDING)

theorem az_override_dims_empty (az : AZResource) (small : Int) (hsubs : az.subnets = []) :
    (AZResource.get_dimensions { az with width_override := (true, small) })
      = (small, PADDING) := by
  rcases az with ⟨i, subs, ov⟩
  dsimp only at hsubs
  subst hsubs
  rfl

theorem azSubnetRectsGo_mem_y (width cols : Int) :
    ∀ (l : List SubnetResource) (sx sy : Int),
      ∀ r ∈ azSubnetRectsGo width cols sx sy l, sy ≤ r.y
  | [], _, _ => by
    intro r hr
    cases hr
  | s :: t, sx, sy => by
    intro r hr
    rcases List.mem_cons.mp hr with hhd | htl
    · rw [hhd]
    · have hs := subnet_height_ge s
      have := azSubnetRectsGo_mem_y width cols t sx (sy + PADDING + (s.get_dimensions).2) r htl
      unfold SUBNET_MIN_H at hs
      unfold PADDING at this
      omega

theorem azSubnetRectsGo_pairwise (width cols : Int) :
    ∀ (l : List SubnetResource) (sx sy : Int),
      (azSubnetRectsGo width cols sx sy l).Pairwise Rect.disjoint
  | [], _, _ => List.Pairwise.nil
  | s :: t, sx, sy => by
    rw [show azSubnetRectsGo width cols sx sy (s :: t)
        = ⟨sx + s.col * ((width - (s.get_dimensions).1 - PADDING).fdiv cols), sy,
            (s.get_dimensions).1, (s.get_dimensions).2⟩
          :: azSubnetRectsGo width cols sx (sy + PADDING + (s.get_dimensions).2) t from rfl]
    rw [List.pairwise_cons]
    constructor
    · intro r hr
      have hy := azSubnetRectsGo_mem_y width cols t sx (sy + PADDING + (s.get_dimensions).2) r hr
      refine Or.inr (Or.inr (Or.inl ?_))
      dsimp only
      unfold PADDING at hy
      omega
    · exact azSubnetRectsGo_pairwise width cols t sx (sy + PADDING + (s.get_dimensions).2)

theorem vpcNaclRectsGo_mem :
    ∀ (n : Nat) (nx ny : Int), ∀ r ∈ vpcNaclRectsGo nx ny n,
      nx ≤ r.x ∧ r.y = ny ∧ r.w = 50 ∧ r.h = 50
  | 0, _, _ => by
    intro r hr
    cases hr
  | Nat.succ n, nx, ny => by
    intro r hr
    rcases List.mem_cons.mp hr with hhd | htl
    · rw [hhd]
      exact ⟨le_refl _, rfl, rfl, rfl⟩
    · have := vpcNaclRectsGo_mem n (nx + RESOURCE_DISTRIBUTION) ny r htl
      refine ⟨?_, this.2⟩
      have h1 := this.1
      unfold RESOURCE_DISTRIBUTION PADDING at h1
      omega

theorem vpcNaclRectsGo_pairwise :
    ∀ (n : Nat) (nx ny : Int), (vpcNaclRectsGo nx ny n).Pairwise Rect.disjoint
  | 0, _, _ => List.Pairwise.nil
  | Nat.succ n, nx, ny => by
    rw [show vpcNaclRectsGo nx ny (Nat.succ n)
        = ⟨nx, ny, 50, 50⟩ :: vpcNaclRectsGo (nx + RESOURCE_DISTRIBUTION) ny n from rfl]
    rw [List.pairwise_cons]
    constructor
    · intro r hr
      have hx := (vpcNaclRectsGo_mem n (nx + RESOURCE_DISTRIBUTION) ny r hr).1
      refine Or.inl ?_
      dsimp only
      unfold RESOURCE_DISTRIBUTION PADDING at hx
      omega
    · exact vpcNaclRectsGo_pairwise n (nx + RESOURCE_DISTRIBUTION) ny

theorem vpcRtRectsGo_mem :
    ∀ (l : List RouteTableResource) (rx ry : Int), ∀ r ∈ vpcRtRectsGo rx ry l,
      r.x = rx ∧ ry ≤ r.y ∧ r.w = 50 ∧ r.h = 50
  | [], _, _ => by
    intro r hr
    cases hr
  | rt :: t, rx, ry => by
    intro r hr
    unfold vpcRtRectsGo at hr
    by_cases hz : rt.routes.length = 0
    · rw [if_pos hz] at hr
      rcases List.mem_cons.mp hr with hhd | htl
      · rw [hhd]
        exact ⟨rfl, le_refl _, rfl, rfl⟩
      · cases htl
    · rw [if_neg hz] at hr
      rcases List.mem_cons.mp hr with hhd | htl
      · rw [hhd]
        exact ⟨rfl, le_refl _, rfl, rfl⟩
      · have := vpcRtRectsGo_mem t rx
          (ry + max ((10 * (DIAGRAM_HEADER_SPACING
            + DIAGRAM_LINE_HEIGHT * (rt.routes.length : Int))).fdiv 13)
            RESOURCE_DISTRIBUTION) r htl
        refine ⟨this.1, ?_, this.2.2⟩
        have h2 := this.2.1
        have hmax : RESOURCE_DISTRIBUTION
            ≤ max ((10 * (DIAGRAM_HEADER_SPACING
              + DIAGRAM_LINE_HEIGHT * (rt.routes.length : Int))).fdiv 13)
              RESOURCE_DISTRIBUTION := le_max_right _ _
        unfold RESOURCE_DISTRIBUTION PADDING at hmax h2
        omega

theorem vpcRtRectsGo_pairwise :
    ∀ (l : List RouteTableResource) (rx ry : Int),
      (vpcRtRectsGo rx ry l).Pairwise Rect.disjoint
  | [], _, _ => List.Pairwise.nil
  | rt :: t, rx, ry => by
    unfold vpcRtRectsGo
    by_cases hz : rt.routes.length = 0
    · rw [if_pos hz]
      exact List.pairwise_cons.mpr ⟨fun r hr => (nomatch hr), List.Pairwise.nil⟩
    · rw [if_neg hz]
      rw [List.pairwise_cons]
      constructor
      · intro r hr
        have hmem := vpcRtRectsGo_mem t rx
          (ry + max ((10 * (DIAGRAM_HEADER_SPACING
            + DIAGRAM_LINE_HEIGHT * (rt.routes.length : Int))).fdiv 13)
            RESOURCE_DISTRIBUTION) r hr
        refine Or.inr (Or.inr (Or.inl ?_))
        dsimp only
        have hy := hmem.2.1
        have hmax : RESOURCE_DISTRIBUTION
            ≤ max ((10 * (DIAGRAM_HEADER_SPACING
              + DIAGRAM_LINE_HEIGHT * (rt.routes.length : Int))).fdiv 13)
              RESOURCE_DISTRIBUTION := le_max_right _ _
        unfold RESOURCE_DISTRIBUTION PADDING at hmax hy
        omega
      · exact vpcRtRectsGo_pairwise t rx _

theorem vpcRtRects_mem (rx ry : Int) (v : VpcResource) :
    ∀ r ∈ vpcRtRects rx ry v, r.x = rx ∧ ry ≤ r.y ∧ r.w = 50 ∧ r.h = 50 := by
  unfold vpcRtRects
  cases h : v.sort_rt_resources with
  | none =>
    intro r hr
    cases hr
  | some l => exact vpcRtRectsGo_mem l rx ry

theorem vpcRtRects_pairwise (rx ry : Int) (v : VpcResource) :
    (vpcRtRects rx ry v).Pairwise Rect.disjoint := by
  unfold vpcRtRects
  cases h : v.sort_rt_resources with
  | none => exact List.Pairwise.nil
  | some l => exact vpcRtRectsGo_pairwise l rx ry

/-! Equations for the four branches of the zone placement loop. -/

theorem vpcAzRectsGo_cons_empty_right (azx small y : Int) (az : AZResource)
    (t : List AZResource) (hsubs : az.subnets = []) :
    vpcAzRectsGo azx small y true (az :: t)
      = ⟨azx + small + PADDING, y, small, PADDING⟩
        :: vpcAzRectsGo azx small (y + PADDING + PADDING) false t := by
  have hem : az.subnets.isEmpty = true := by
    rw [hsubs]
    rfl
  simp only [vpcAzRectsGo]
  rw [if_pos hem, az_override_dims_empty az small hsubs]
  simp

theorem vpcAzRectsGo_cons_empty_left (azx small y : Int) (az : AZResource)
    (t : List AZResource) (hsubs : az.subnets = []) :
    vpcAzRectsGo azx small y false (az :: t)
      = ⟨azx, y, small, PADDING⟩ :: vpcAzRectsGo azx small y true t := by
  have hem : az.subnets.isEmpty = true := by
    rw [hsubs]
    rfl
  simp only [vpcAzRectsGo]
  rw [if_pos hem, az_override_dims_empty az small hsubs]
  simp

theorem vpcAzRectsGo_cons_nonempty_false (azx small y : Int) (az : AZResource)
    (t : List AZResource) (hem : ¬ az.subnets.isEmpty = true) :
    vpcAzRectsGo azx small y false (az :: t)
      = ⟨azx, y, (az.get_dimensions).1, (az.get_dimensions).2⟩
        :: vpcAzRectsGo azx small (y + PADDING + (az.get_dimensions).2) false t := by
  simp only [vpcAzRectsGo]
  rw [if_neg hem]
  simp

theorem vpcAzRectsGo_cons_nonempty_true (azx small y : Int) (az : AZResource)
    (t : List AZResource) (hem : ¬ az.subnets.isEmpty = true) :
    vpcAzRectsGo azx small y true (az :: t)
      = ⟨azx, y + SUBNET_MIN_H + PADDING, (az.get_dimensions).1, (az.get_dimensions).2⟩
        :: vpcAzRectsGo azx small
            (y + SUBNET_MIN_H + PADDING + PADDING + (az.get_dimensions).2) false t := by
  simp only [vpcAzRectsGo]
  rw [if_neg hem]
  simp

/-- Every zone rectangle is placed at or below the current row and at or
    right of the zone column (when the small placeholder width is not
    negative). -/
theorem vpcAzRectsGo_mem (azx small : Int) (hsm : 0 ≤ small) (l : List AZResource) :
    ∀ (y : Int) (right : Bool), ∀ r ∈ vpcAzRectsGo azx small y right l,
      y ≤ r.y ∧ azx ≤ r.x := by
  induction l with
  | nil =>
    intro y right r hr
    cases hr
  | cons az t ih =>
    intro y right r hr
    have hP : PADDING = 60 := rfl
    have hSH : SUBNET_MIN_H = 80 := rfl
    have hzh := az_height_ge az
    by_cases hem : az.subnets.isEmpty = true
    · have hsubs := List.isEmpty_iff.mp hem
      cases right with
      | true =>
        rw [vpcAzRectsGo_cons_empty_right azx small y az t hsubs] at hr
        rcases List.mem_cons.mp hr with hhd | htl
        · rw [hhd]
          constructor
          · exact le_refl _
          · dsimp only
            omega
        · have := ih (y + PADDING + PADDING) false r htl
          constructor
          · omega
          · exact this.2
      | false =>
        rw [vpcAzRectsGo_cons_empty_left azx small y az t hsubs] at hr
        rcases List.mem_cons.mp hr with hhd | htl
        · rw [hhd]
          exact ⟨le_refl _, le_refl _⟩
        · exact ih y true r htl
    · cases right with
      | true =>
        rw [vpcAzRectsGo_cons_nonempty_true azx small y az t hem] at hr
        rcases List.mem_cons.mp hr with hhd | htl
        · rw [hhd]
          constructor
          · dsimp only
            omega
          · exact le_refl _
        · have := ih (y + SUBNET_MIN_H + PADDING + PADDING + (az.get_dimensions).2) false r htl
          constructor
          · omega
          · exact this.2
      | false =>
        rw [vpcAzRectsGo_cons_nonempty_false azx small y az t hem] at hr
        rcases List.mem_cons.mp hr with hhd | htl
        · rw [hhd]
          exact ⟨le_refl _, le_refl _⟩
        · have := ih (y + PADDING + (az.get_dimensions).2) false r htl
          constructor
          · omega
          · exact this.2

/-- Any rectangle emitted while a left placeholder is pending is either a
    right placeholder on the same row, clear of the left one horizontally,
    or lies at least one padding below the row. -/
theorem vpcAzRectsGo_right_facts (azx small : Int) (hsm : 0 ≤ small)
    (l : List AZResource) (y : Int) :
    ∀ r ∈ vpcAzRectsGo azx small y true l,
      azx + small + PADDING ≤ r.x ∨ y + PADDING ≤ r.y := by
  intro r hr
  have hP : PADDING = 60 := rfl
  have hSH : SUBNET_MIN_H = 80 := rfl
  cases l with
  | nil => cases hr
  | cons az t =>
    have hzh := az_height_ge az
    by_cases hem : az.subnets.isEmpty = true
    · have hsubs := List.isEmpty_iff.mp hem
      rw [vpcAzRectsGo_cons_empty_right azx small y az t hsubs] at hr
      rcases List.mem_cons.mp hr with hhd | htl
      · rw [hhd]
        exact Or.inl (le_refl _)
      · have := (vpcAzRectsGo_mem azx small hsm t (y + PADDING + PADDING) false r htl).1
        refine Or.inr ?_
        omega
    · rw [vpcAzRectsGo_cons_nonempty_true azx small y az t hem] at hr
      rcases List.mem_cons.mp hr with hhd | htl
      · rw [hhd]
        refine Or.inr ?_
        dsimp only
        omega
      · have := (vpcAzRectsGo_mem azx small hsm t
          (y + SUBNET_MIN_H + PADDING + PADDING + (az.get_dimensions).2) false r htl).1
        refine Or.inr ?_
        omega

theorem vpcAzRectsGo_pairwise (azx small : Int) (hsm : 0 ≤ small) (l : List AZResource) :
    ∀ (y : Int) (right : Bool),
      (vpcAzRectsGo azx small y right l).Pairwise Rect.disjoint := by
  induction l with
  | nil =>
    intro y right
    exact List.Pairwise.nil
  | cons az t ih =>
    intro y right
    have hP : PADDING = 60 := rfl
    have hSH : SUBNET_MIN_H = 80 := rfl
    have hzh := az_height_ge az
    by_cases hem : az.subnets.isEmpty = true
    · have hsubs := List.isEmpty_iff.mp hem
      cases right with
      | true =>
        rw [vpcAzRectsGo_cons_empty_right azx small y az t hsubs]
        rw [List.pairwise_cons]
        constructor
        · intro r hr
          have := (vpcAzRectsGo_mem azx small hsm t (y + PADDING + PADDING) false r hr).1
          refine Or.inr (Or.inr (Or.inl ?_))
          dsimp only
          omega
        · exact ih (y + PADDING + PADDING) false
      | false =>
        rw [vpcAzRectsGo_cons_empty_left azx small y az t hsubs]
        rw [List.pairwise_cons]
        constructor
        · intro r hr
          rcases vpcAzRectsGo_right_facts azx small hsm t y r hr with hx | hy
          · refine Or.inl ?_
            dsimp only
            omega
          · refine Or.inr (Or.inr (Or.inl ?_))
            dsimp only
            omega
        · exact ih y true
    · cases right with
      | true =>
        rw [vpcAzRectsGo_cons_nonempty_true azx small y az t hem]
        rw [List.pairwise_cons]
        constructor
        · intro r hr
          have := (vpcAzRectsGo_mem azx small hsm t
            (y + SUBNET_MIN_H + PADDING + PADDING + (az.get_dimensions).2) false r hr).1
          refine Or.inr (Or.inr (Or.inl ?_))
          dsimp only
          omega
        · exact ih _ false
      | false =>
        rw [vpcAzRectsGo_cons_nonempty_false azx small y az t hem]
        rw [List.pairwise_cons]
        constructor
        · intro r hr
          have := (vpcAzRectsGo_mem azx small hsm t
            (y + PADDING + (az.get_dimensions).2) false r hr).1
          refine Or.inr (Or.inr (Or.inl ?_))
          dsimp only
          omega
        · exact ih _ false

theorem vpcSizingFold_snd_ge (v : VpcResource) :
    RESOURCE_DISTRIBUTION + PADDING ≤ (vpcSizingFold v).2 :=
  foldl_vpcDimsStep_snd_ge v.azs _

/-- A vpc that owns anything reports a width of at least 540: the maximum
    width requirement starts at RESOURCE_DISTRIBUTION + PADDING = 240 and
    only grows, and get_dimensions adds 5 paddings. -/
theorem vpc_width_ge (v : VpcResource) (h : ¬ v.check_empty = true) :
    540 ≤ (v.get_dimensions).1.1 := by
  have hfold := vpcSizingFold_snd_ge v
  have hRD : RESOURCE_DISTRIBUTION = 180 := rfl
  have hP : PADDING = 60 := rfl
  unfold VpcResource.get_dimensions
  rw [if_neg h]
  dsimp only
  split <;> omega

/-- C1: siblings placed by the same container never overlap. For a zone,
    the subnet rectangles assigned by AZResource.render_xml are pairwise
    disjoint for every position, reported width and column count; for a
    vpc, the nacl icons, route table icons and zone boxes assigned by
    VpcResource.render_xml are pairwise disjoint for every position. -/
theorem claim_C1_sibling_no_overlap :
    (∀ (az : AZResource) (x y cols : Int),
      (az.subnet_rects x y cols).Pairwise Rect.disjoint)
    ∧ (∀ (v : VpcResource) (x y : Int),
      (v.child_rects x y).Pairwise Rect.disjoint) := by
  constructor
  · intro az x y cols
    exact azSubnetRectsGo_pairwise (az.get_dimensions).1 cols
      (pySorted (fun a b => decide (a.name ≤ b.name)) az.subnets) (x + PADDING) (y + PADDING)
  · intro v x y
    by_cases hemp : v.check_empty = true
    · rcases v with ⟨azs, nc, rts⟩
      simp only [VpcResource.check_empty, Bool.and_eq_true, List.isEmpty_iff,
        beq_iff_eq] at hemp
      obtain ⟨⟨h1, h2⟩, h3⟩ := hemp
      subst h1
      subst h2
      subst h3
      exact List.Pairwise.nil
    · have h540 := vpc_width_ge v hemp
      unfold VpcResource.child_rects
      dsimp only
      have hP : PADDING = 60 := rfl
      have hRD : RESOURCE_DISTRIBUTION = 180 := rfl
      have hsm : 0 ≤ ((v.get_dimensions).1.1 - 7 * PADDING).fdiv 2 := by
        rw [Int.fdiv_eq_ediv _ (by norm_num)]
        omega
      rw [List.pairwise_append]
      refine ⟨?_, vpcAzRectsGo_pairwise _ _ hsm _ _ _, ?_⟩
      · rw [List.pairwise_append]
        refine ⟨vpcNaclRectsGo_pairwise _ _ _, vpcRtRects_pairwise _ _ _, ?_⟩
        intro a ha b hb
        have hma := vpcNaclRectsGo_mem _ _ _ a ha
        have hmb := vpcRtRects_mem _ _ _ b hb
        obtain ⟨_, hay, _, hah⟩ := hma
        obtain ⟨_, hby, _, _⟩ := hmb
        refine Or.inr (Or.inr (Or.inl ?_))
        omega
      · intro a ha b hb
        have hmb := vpcAzRectsGo_mem _ _ hsm _ _ _ b hb
        obtain ⟨hby, hbx⟩ := hmb
        rcases List.mem_append.mp ha with hanacl | hart
        · have hma := vpcNaclRectsGo_mem _ _ _ a hanacl
          obtain ⟨_, hay, _, hah⟩ := hma
          refine Or.inr (Or.inr (Or.inl ?_))
          omega
        · have hma := vpcRtRects_mem _ _ _ a hart
          have hfdiv : PADDING.fdiv 2 = 30 := by decide
          obtain ⟨hax, _, haw, _⟩ := hma
          refine Or.inl ?_
          omega

/-! Height bookkeeping for the zone sizing loop. -/

def subnetHeightsSum (l : List SubnetResource) : Int :=
  (l.map (fun s => (s.get_dimensions).2 + PADDING)).sum

theorem subnetHeightsSum_nonneg : ∀ l : List SubnetResource, 0 ≤ subnetHeightsSum l
  | [] => le_refl _
  | s :: t => by
    have hs := subnet_height_ge s
    have ht := subnetHeightsSum_nonneg t
    have hP : PADDING = 60 := rfl
    have hSH : SUBNET_MIN_H = 80 := rfl
    have hcons : subnetHeightsSum (s :: t)
        = (s.get_dimensions).2 + PADDING + subnetHeightsSum t := by
      simp [subnetHeightsSum]
    omega

theorem azDimsGo_snd_eq :
    ∀ (l : List SubnetResource) (p : Int × Int), (azDimsGo p l).2 = p.2 + subnetHeightsSum l
  | [], p => by
    simp [azDimsGo, subnetHeightsSum]
  | s :: t, p => by
    show (azDimsGo ((s.get_dimensions).1, p.2 + (s.get_dimensions).2 + PADDING) t).2 = _
    rw [azDimsGo_snd_eq t]
    have hcons : subnetHeightsSum (s :: t)
        = (s.get_dimensions).2 + PADDING + subnetHeightsSum t := by
      simp [subnetHeightsSum]
    dsimp only
    omega

theorem azDimsGo_fst_nonempty :
    ∀ (l : List SubnetResource) (p : Int × Int), l ≠ [] → (azDimsGo p l).1 = SUBNET_MIN_W
  | [], _, h => absurd rfl h
  | s :: t, p, _ => by
    show (azDimsGo ((s.get_dimensions).1, p.2 + (s.get_dimensions).2 + PADDING) t).1 = _
    cases t with
    | nil => rfl
    | cons s2 t2 => exact azDimsGo_fst_nonempty (s2 :: t2) _ (by simp)

/-- Bounds on every subnet rectangle placed inside a zone of reported
    width 460 (the width of a zone without override) with the default 3
    alignment columns, when every column suggestion is between 0 and 3. -/
theorem azSubnetRectsGo_bounds :
    ∀ (l : List SubnetResource) (sx sy : Int),
      (∀ s ∈ l, 0 ≤ s.col ∧ s.col ≤ 3) →
      ∀ r ∈ azSubnetRectsGo 460 3 sx sy l,
        sx ≤ r.x ∧ r.x + r.w ≤ sx + 400 ∧ sy ≤ r.y
          ∧ r.y + r.h + PADDING ≤ sy + subnetHeightsSum l
  | [], _, _ => by
    intro _ r hr
    cases hr
  | s :: t, sx, sy => by
    intro hcols r hr
    have hfst : (s.get_dimensions).1 = 340 := rfl
    have hsh := subnet_height_ge s
    have hsum_t := subnetHeightsSum_nonneg t
    have hP : PADDING = 60 := rfl
    have hSH : SUBNET_MIN_H = 80 := rfl
    have hcol := hcols s (List.mem_cons_self s t)
    have hq : ((460 : Int) - (s.get_dimensions).1 - PADDING).fdiv 3 = 20 := by
      rw [hfst]
      decide
    have hsum_cons : subnetHeightsSum (s :: t)
        = (s.get_dimensions).2 + PADDING + subnetHeightsSum t := by
      simp [subnetHeightsSum]
    simp only [azSubnetRectsGo] at hr
    rcases List.mem_cons.mp hr with hhd | htl
    · rw [hhd]
      dsimp only
      rw [hq, hfst]
      refine ⟨by omega, by omega, le_refl _, ?_⟩
      omega
    · have := azSubnetRectsGo_bounds t sx (sy + PADDING + (s.get_dimensions).2)
        (fun s2 hs2 => hcols s2 (List.mem_cons_of_mem s hs2)) r htl
      obtain ⟨b1, b2, b3, b4⟩ := this
      refine ⟨b1, b2, by omega, by omega⟩

/-- C2 counterexample, refuting the claim at three concrete inputs.
    First, a subnet with one NAT gateway at (0, 0) has rectangle
    (0, 0, 340, 120) but its gateway icon occupies (310, 60, 50, 50),
    which is not contained in the subnet rectangle (it sticks out 20 to
    the right), contradicting the parenthetical of the claim. Second, a
    zone holding one subnet with column suggestion 2 places that subnet at
    (100, 60, 340, 80) inside its own (0, 0, 460, 200) box with a right
    margin of only 20, less than the fixed padding, so padding on every
    side fails. Third, a vpc with six zones alternating empty and
    nonempty places its last zone box at (180, 1120, 460, 200), whose
    bottom edge 1320 lies outside the (820, 1200) box the vpc reports, so
    containment fails recursively at the vpc level as well. -/
theorem claim_C2_containment_counterexample :
    ((⟨"s", 1, 0⟩ : SubnetResource).ng_rects 0 0 = [⟨310, 60, 50, 50⟩]
      ∧ (⟨"s", 1, 0⟩ : SubnetResource).get_dimensions = (340, 120)
      ∧ ¬ Rect.containsR ⟨0, 0, 340, 120⟩ ⟨310, 60, 50, 50⟩)
    ∧ ((⟨"a", [⟨"s2", 0, 2⟩], (false, 0)⟩ : AZResource).subnet_rects 0 0 3
        = [⟨100, 60, 340, 80⟩]
      ∧ (⟨"a", [⟨"s2", 0, 2⟩], (false, 0)⟩ : AZResource).get_dimensions = (460, 200)
      ∧ ¬ Rect.containsPadded ⟨0, 0, 460, 200⟩ ⟨100, 60, 340, 80⟩)
    ∧ ((Rect.mk 180 1120 460 200) ∈ VpcResource.child_rects
        ⟨[⟨"e1", [], (false, 0)⟩, ⟨"n1", [⟨"s", 0, 0⟩], (false, 0)⟩,
          ⟨"e2", [], (false, 0)⟩, ⟨"n2", [⟨"s", 0, 0⟩], (false, 0)⟩,
          ⟨"e3", [], (false, 0)⟩, ⟨"n3", [⟨"s", 0, 0⟩], (false, 0)⟩], 0, []⟩ 0 0
      ∧ (VpcResource.get_dimensions
        ⟨[⟨"e1", [], (false, 0)⟩, ⟨"n1", [⟨"s", 0, 0⟩], (false, 0)⟩,
          ⟨"e2", [], (false, 0)⟩, ⟨"n2", [⟨"s", 0, 0⟩], (false, 0)⟩,
          ⟨"e3", [], (false, 0)⟩, ⟨"n3", [⟨"s", 0, 0⟩], (false, 0)⟩], 0, []⟩).1 = (820, 1200)
      ∧ ¬ Rect.containsR ⟨0, 0, 820, 1200⟩ ⟨180, 1120, 460, 200⟩) := by decide

/-- C2 (amended): containment holds at the zone level in the default
    geometry, with a reduced right margin. For a zone without a width
    override whose subnets all carry column suggestions between 0 and 3,
    every subnet rectangle placed by AZResource.render_xml lies inside the
    box reported by get_dimensions with at least the fixed padding to the
    left, top and bottom; the right margin is only padding minus 20 times
    the column suggestion. NAT gateway icons are not contained in their
    subnet rectangle (they overhang its right edge), and vpc level
    containment can fail for zones alternating empty and nonempty, as the
    counterexample shows. -/
theorem claim_C2_containment_amended (az : AZResource) (x y : Int)
    (hov : az.width_override.1 = false)
    (hcol : ∀ s ∈ az.subnets, 0 ≤ s.col ∧ s.col ≤ 3) :
    ∀ r ∈ az.subnet_rects x y 3,
      x + PADDING ≤ r.x ∧ y + PADDING ≤ r.y
        ∧ r.x + r.w ≤ x + (az.get_dimensions).1
        ∧ r.y + r.h + PADDING ≤ y + (az.get_dimensions).2 := by
  intro r hr
  by_cases hne : az.subnets = []
  · rw [show az.subnet_rects x y 3 = [] from by
      unfold AZResource.subnet_rects
      rw [hne]
      rfl] at hr
    cases hr
  · have hperm := pySorted_perm (fun a b => decide (a.name ≤ b.name)) az.subnets
    have hovne : ¬ az.width_override.1 = true := by
      rw [hov]
      exact Bool.false_ne_true
    have hw : (az.get_dimensions).1 = 460 := by
      unfold AZResource.get_dimensions
      dsimp only
      rw [if_neg hovne, azDimsGo_fst_nonempty az.subnets (0, PADDING) hne]
      rfl
    have hh : (az.get_dimensions).2 = PADDING + subnetHeightsSum az.subnets := by
      show (azDimsGo (0, PADDING) az.subnets).2 = _
      rw [azDimsGo_snd_eq]
    have hsum_eq : subnetHeightsSum
          (pySorted (fun a b => decide (a.name ≤ b.name)) az.subnets)
        = subnetHeightsSum az.subnets := by
      unfold subnetHeightsSum
      exact (hperm.map (fun s => (s.get_dimensions).2 + PADDING)).sum_eq
    have hr2 : r ∈ azSubnetRectsGo 460 3 (x + PADDING) (y + PADDING)
        (pySorted (fun a b => decide (a.name ≤ b.name)) az.subnets) := by
      have : az.subnet_rects x y 3 = azSubnetRectsGo 460 3 (x + PADDING) (y + PADDING)
          (pySorted (fun a b => decide (a.name ≤ b.name)) az.subnets) := by
        unfold AZResource.subnet_rects
        rw [hw]
      rw [this] at hr
      exact hr
    have hb := azSubnetRectsGo_bounds _ (x + PADDING) (y + PADDING)
      (fun s hs => hcol s (hperm.mem_iff.mp hs)) r hr2
    obtain ⟨b1, b2, b3, b4⟩ := hb
    have hP : PADDING = 60 := rfl
    rw [hsum_eq] at b4
    refine ⟨b1, b3, ?_, ?_⟩
    · rw [hw]
      omega
    · rw [hh]
      omega

theorem claim_C2_containment_amended_witness :
    (0 : Int) + PADDING ≤ (100 : Int) ∧ (0 : Int) + PADDING ≤ (60 : Int)
      ∧ (100 : Int) + 340
          ≤ 0 + ((⟨"a", [⟨"s2", 0, 2⟩], (false, 0)⟩ : AZResource).get_dimensions).1
      ∧ (60 : Int) + 80 + PADDING
          ≤ 0 + ((⟨"a", [⟨"s2", 0, 2⟩], (false, 0)⟩ : AZResource).get_dimensions).2 :=
  claim_C2_containment_amended ⟨"a", [⟨"s2", 0, 2⟩], (false, 0)⟩ 0 0 rfl (by decide)
    ⟨100, 60, 340, 80⟩ (by decide)
